import Mathlib

/-!
Verification of the ACM-poker-bot equity core (`src/equity/hand_eval.py`,
`src/equity/equity_calc.py`) against its specification.

Cards are the source's 16-bit integer encoding, modelled as `ℕ`:
bits 0-3 the rank (0 = deuce .. 12 = ace), bits 4-5 the suit.
Hand rank values are `ℤ` (lower = better); the Python sentinel
`float('inf')` used to fold minima is modelled as `⊤ : WithTop ℤ`.
Python exceptions are modelled with `Except EvalError`.
-/

namespace PokerBot

/-- Error taxonomy of the spec; `wrongCardCount` stands for the
`ValueError` raised on a wrong number of cards, `nameError` for Python's
`NameError` when `opp_rank` is read before any assignment. -/
inductive EvalError where
  | invalidCardFormat
  | duplicateCard
  | wrongCardCount
  | nameError
  | insufficientPoolSize
deriving DecidableEq

instance exceptDecEq {ε α : Type} [DecidableEq ε] [DecidableEq α] : DecidableEq (Except ε α)
  | .error a, .error b =>
    if h : a = b then isTrue (congrArg Except.error h)
    else isFalse (fun hc => h (Except.error.inj hc))
  | .error _, .ok _ => isFalse (fun hc => Except.noConfusion hc)
  | .ok _, .error _ => isFalse (fun hc => Except.noConfusion hc)
  | .ok a, .ok b =>
    if h : a = b then isTrue (congrArg Except.ok h)
    else isFalse (fun hc => h (Except.ok.inj hc))

/-- Insertion step for descending sort (models Python
`sorted(_, reverse=True)` on rank lists). -/
def insertDesc (a : ℕ) : List ℕ → List ℕ
  | [] => [a]
  | b :: l => if a ≤ b then b :: insertDesc a l else a :: b :: l

/-- Descending insertion sort. -/
def sortDesc (l : List ℕ) : List ℕ := l.foldr insertDesc []

/-- Insertion step for ascending sort (models Python `sorted(_)`). -/
def insertAsc (a : ℕ) : List ℕ → List ℕ
  | [] => [a]
  | b :: l => if b ≤ a then b :: insertAsc a l else a :: b :: l

/-- Ascending insertion sort. -/
def sortAsc (l : List ℕ) : List ℕ := l.foldr insertAsc []

/-- `RANK_MAP` of `hand_eval.py`: lowercase rank character to rank index. -/
def RANK_MAP : Char → Option ℕ
  | '2' => some 0
  | '3' => some 1
  | '4' => some 2
  | '5' => some 3
  | '6' => some 4
  | '7' => some 5
  | '8' => some 6
  | '9' => some 7
  | 't' => some 8
  | 'j' => some 9
  | 'q' => some 10
  | 'k' => some 11
  | 'a' => some 12
  | _ => none

/-- `SUIT_MAP` of `hand_eval.py`: lowercase suit character to suit index. -/
def SUIT_MAP : Char → Option ℕ
  | 's' => some 0
  | 'h' => some 1
  | 'd' => some 2
  | 'c' => some 3
  | _ => none

/-- `RANK_STR` of `hand_eval.py`. -/
def RANK_STR : List Char := ['2', '3', '4', '5', '6', '7', '8', '9', 't', 'j', 'q', 'k', 'a']

/-- `SUIT_STR` of `hand_eval.py`. -/
def SUIT_STR : List Char := ['s', 'h', 'd', 'c']

/-- `string_to_card` of `hand_eval.py`: a two-character token, given as the
rank character and the suit character, is lowercased, looked up in the rank
and suit maps, and encoded as `(rank & 0xF) | ((suit & 0x3) << 4)`.
The Python `ValueError` on an unknown character is modelled as `none`. -/
def string_to_card (rank_char suit_char : Char) : Option ℕ :=
  match RANK_MAP rank_char.toLower, SUIT_MAP suit_char.toLower with
  | some rank, some suit => some ((rank &&& 0xF) ||| ((suit &&& 0x3) <<< 4))
  | _, _ => none

/-- `card_to_string` of `hand_eval.py`: decodes the rank nibble and suit pair
back to the two characters `RANK_STR[rank]`, `SUIT_STR[suit]`; the Python
`IndexError` on an out-of-range rank nibble is modelled as `none`. -/
def card_to_string (card : ℕ) : Option (Char × Char) :=
  match RANK_STR.get? (card &&& 0xF), SUIT_STR.get? ((card >>> 4) &&& 0x3) with
  | some r, some s => some (r, s)
  | _, _ => none

/-- Convenience: the encoded card of a (valid) token, used to spell out
concrete hands. -/
def card! (rank_char suit_char : Char) : ℕ :=
  (string_to_card rank_char suit_char).getD 0

namespace HandEvaluator

/-- `HandEvaluator._classify_hand` of `hand_eval.py`: classifies 5 rank
indices by pair/trip/quad structure (no straights or flushes).
Counter frequencies are modelled as the counts of the deduplicated list;
Python filter-comprehensions with `[0]` are modelled with `headD 0`
(the branch guards keep the filters non-empty exactly as in the source). -/
def classify_hand (ranks : List ℕ) : ℤ :=
  let ranks_sorted := sortDesc ranks
  let counts := sortDesc ((ranks_sorted.dedup).map (fun r => ranks_sorted.count r))
  if counts = [4, 1] then
    let quad_rank := ((ranks_sorted.filter (fun r => ranks.count r = 4)).headD 0 : ℕ)
    1000 + ((12 : ℤ) - quad_rank)
  else if counts = [3, 2] then
    let trip_rank := ((ranks_sorted.filter (fun r => ranks.count r = 3)).headD 0 : ℕ)
    let pair_rank := ((ranks_sorted.filter (fun r => ranks.count r = 2)).headD 0 : ℕ)
    1200 + ((12 : ℤ) - trip_rank) * 13 + ((12 : ℤ) - pair_rank)
  else if counts = [3, 1, 1] then
    let trip_rank := ((ranks_sorted.filter (fun r => ranks.count r = 3)).headD 0 : ℕ)
    let kickers := sortDesc (ranks.filter (fun r => ranks.count r = 1))
    let kicker_value :=
      (((kickers.take 2).enum).map
        (fun ik => ((13 : ℤ) - (ik.2 : ℤ)) * (((100 : ℕ) >>> (ik.1 * 2) : ℕ) : ℤ))).sum
    2000 + ((12 : ℤ) - trip_rank) * 100 + kicker_value
  else if counts = [2, 2, 1] then
    let pairs := sortDesc (ranks_sorted.filter (fun r => ranks.count r = 2))
    let kicker := ((ranks.filter (fun r => ranks.count r = 1)).headD 0 : ℕ)
    3000 + ((12 : ℤ) - (pairs.headD 0 : ℕ)) * 100
      + ((12 : ℤ) - ((pairs.get? 1).getD 0 : ℕ)) * 10 + ((12 : ℤ) - kicker)
  else if counts = [2, 1, 1, 1] then
    let pair_rank := ((ranks_sorted.filter (fun r => ranks.count r = 2)).headD 0 : ℕ)
    let kickers := sortDesc (ranks.filter (fun r => ranks.count r = 1))
    let kicker_value :=
      (((kickers.take 3).enum).map
        (fun ik => ((13 : ℤ) - (ik.2 : ℤ)) * (((100 : ℕ) >>> (ik.1 * 2) : ℕ) : ℤ))).sum
    4000 + ((12 : ℤ) - pair_rank) * 1000 + kicker_value
  else
    let high_card := (ranks_sorted.headD 0 : ℕ)
    6200 + ((12 : ℤ) - high_card) * 1000
      + ((ranks_sorted.tail).map (fun r => (12 : ℤ) - (r : ℤ))).sum

/-- `HandEvaluator._is_straight` of `hand_eval.py`. Python's
`sorted(set(ranks))` is modelled as `sortAsc ranks.dedup`; the set
comparison with `{0,1,2,3,12}` compares that sorted deduplication with
the list `[0,1,2,3,12]`. -/
def is_straight (ranks : List ℕ) : Bool :=
  if ranks.length ≠ 5 then false
  else
    let sorted_ranks := sortAsc ranks.dedup
    if sorted_ranks.getLastD 0 - sorted_ranks.headD 0 = 4 ∧ ranks.dedup.length = 5 then true
    else if sorted_ranks = [0, 1, 2, 3, 12] then true
    else false

/-- `HandEvaluator._evaluate` of `hand_eval.py`: internal evaluation of a
5-card hand given the integer cards. Python's `max(ranks)` on a non-empty
list is modelled as `foldr max 0`. -/
def evaluate (card_ints : List ℕ) : ℤ :=
  let suits := card_ints.map (fun c => (c >>> 4) &&& 0x3)
  let ranks := card_ints.map (fun c => c &&& 0xF)
  let flush := suits.dedup.length == 1
  let ranks_sorted := sortDesc ranks
  let straight := is_straight ranks_sorted
  if flush && straight then
    let high_rank := ranks.foldr max 0
    if sortAsc ranks.dedup = [0, 1, 2, 3, 12] then 1
    else (12 : ℤ) - high_rank
  else if flush then
    let high_card := (ranks_sorted.headD 0 : ℕ)
    1400 + ((12 : ℤ) - high_card) * 1000
      + ((ranks_sorted.tail).map (fun r => (12 : ℤ) - (r : ℤ))).sum
  else if straight then
    let high_rank := (ranks_sorted.headD 0 : ℕ)
    if sortAsc ranks.dedup = [0, 1, 2, 3, 12] then 1600 + 799
    else 1600 + ((12 : ℤ) - high_rank)
  else classify_hand ranks

/-- `HandEvaluator.evaluate_5cards` of `hand_eval.py` (integer-card path):
raises `ValueError` unless exactly 5 cards, then delegates to `evaluate`. -/
def evaluate_5cards (cards : List ℕ) : Except EvalError ℤ :=
  if cards.length ≠ 5 then .error .wrongCardCount
  else .ok (evaluate cards)

/-- The `best_rank` fold of `HandEvaluator.evaluate_7cards`: starts at
`float('inf')` (`⊤`) and takes the minimum of `evaluate` over every 5-card
combination. `List.sublistsLen 5` enumerates the same 21 subsets as
`itertools.combinations(_, 5)` (the enumeration order cannot affect a fold
of the commutative, associative `min`). -/
def bestRank (card_ints : List ℕ) : WithTop ℤ :=
  (List.sublistsLen 5 card_ints).foldl
    (fun b c => min b ((evaluate c : ℤ) : WithTop ℤ)) ⊤

/-- `HandEvaluator.evaluate_7cards` of `hand_eval.py` (integer-card path):
raises `ValueError` unless exactly 7 cards, then folds the minimum of
`evaluate` over all 5-card combinations. -/
def evaluate_7cards (cards : List ℕ) : Except EvalError (WithTop ℤ) :=
  if cards.length ≠ 7 then .error .wrongCardCount
  else .ok (bestRank cards)

end HandEvaluator

namespace equity_calc

/-- One step of the inner opponent loop of
`equity_calc.estimate_equity_5cards`: Python assigns
`opp_rank = evaluate_hand(opp_hand)` only when the opponent hand has 5
cards, then always executes
`best_opponent_rank = min(best_opponent_rank, opp_rank)` — so a hand of a
different length silently reuses the previous `opp_rank`, and reading it
before any assignment is a `NameError`. The state is
(current best, last assigned `opp_rank`). -/
def oppStep (st : WithTop ℤ × Option ℤ) (opp_hand : List ℕ) :
    Except EvalError (WithTop ℤ × Option ℤ) :=
  let r? := if opp_hand.length = 5 then some (HandEvaluator.evaluate opp_hand) else st.2
  match r? with
  | none => .error .nameError
  | some r => .ok (min st.1 ((r : ℤ) : WithTop ℤ), some r)

/-- One iteration of the `for _ in range(num_simulations)` loop of
`estimate_equity_5cards`: fold all opponents (starting from
`float('inf')`, threading the surviving `opp_rank`), then the
`if my_rank < best / elif equal` win-tie tally. State: (wins, ties,
last `opp_rank`). The loop variable is ignored, as in the source. -/
def trialStep5 (opponent_hands : List (List ℕ)) (my_rank : ℤ)
    (st : ℕ × ℕ × Option ℤ) (_ : ℕ) : Except EvalError (ℕ × ℕ × Option ℤ) := do
  let br ← opponent_hands.foldlM oppStep ((⊤ : WithTop ℤ), st.2.2)
  if ((my_rank : ℤ) : WithTop ℤ) < br.1 then pure (st.1 + 1, st.2.1, br.2)
  else if ((my_rank : ℤ) : WithTop ℤ) = br.1 then pure (st.1, st.2.1 + 1, br.2)
  else pure (st.1, st.2.1, br.2)

/-- `equity_calc.estimate_equity_5cards`: checks the hero hand has 5 cards,
evaluates it once, then runs `num_simulations` identical trials, each
folding the opponent hands to the best (minimum) opponent rank and
crediting a win when the hero rank is strictly smaller, else a tie when
equal; finally returns `(wins + ties / len(opponent_hands)) /
num_simulations`, or `0` when the opponent list is empty. The Python
variable `opp_rank` survives across trials, hence the threaded `Option ℤ`
component. Arithmetic is modelled exactly over `ℚ`. -/
def estimate_equity_5cards (my_hand : List ℕ) (opponent_hands : List (List ℕ))
    (num_simulations : ℕ) : Except EvalError ℚ :=
  if my_hand.length ≠ 5 then .error .wrongCardCount
  else
    ((List.range num_simulations).foldlM
      (trialStep5 opponent_hands (HandEvaluator.evaluate my_hand))
      (0, 0, (none : Option ℤ))).map
      (fun st =>
        if opponent_hands.isEmpty then 0
        else ((st.1 : ℚ) + (st.2.1 : ℚ) / (opponent_hands.length : ℚ))
          / (num_simulations : ℚ))

/-- One step of the inner opponent loop of
`equity_calc.estimate_equity_7cards`: raises `ValueError` unless the
opponent hand has exactly 7 cards, evaluates its best 5-card rank and folds
the minimum. -/
def oppStep7 (best : WithTop ℤ) (opp_cards : List ℕ) : Except EvalError (WithTop ℤ) :=
  if opp_cards.length ≠ 7 then .error .wrongCardCount
  else do
    let r ← HandEvaluator.evaluate_7cards opp_cards
    pure (min best r)

/-- One iteration of the trial loop of `estimate_equity_7cards`: fold all
opponents to the best (minimum) rank, then the win-tie tally against the
hero's precomputed best rank. -/
def trialStep7 (opponent_cards : List (List ℕ)) (my_best : WithTop ℤ)
    (st : ℕ × ℕ) (_ : ℕ) : Except EvalError (ℕ × ℕ) := do
  let best ← opponent_cards.foldlM oppStep7 (⊤ : WithTop ℤ)
  if my_best < best then pure (st.1 + 1, st.2)
  else if my_best = best then pure (st.1, st.2 + 1)
  else pure st

/-- `equity_calc.estimate_equity_7cards`: checks the hero has 7 cards,
evaluates the hero's best rank once, then runs `num_simulations` identical
trials against the opponents' best ranks, and returns
`(wins + ties / len(opponent_cards)) / num_simulations`, or `0` when the
opponent list is empty. -/
def estimate_equity_7cards (my_cards : List ℕ) (opponent_cards : List (List ℕ))
    (num_simulations : ℕ) : Except EvalError ℚ :=
  if my_cards.length ≠ 7 then .error .wrongCardCount
  else do
    let my_best ← HandEvaluator.evaluate_7cards my_cards
    let st ← (List.range num_simulations).foldlM (trialStep7 opponent_cards my_best)
      ((0 : ℕ), (0 : ℕ))
    pure
      (if opponent_cards.isEmpty then 0
       else ((st.1 : ℚ) + (st.2 : ℚ) / (opponent_cards.length : ℚ))
         / (num_simulations : ℚ))

/-- Modelled from the spec: the unified `estimate_equity` entry point that
`src/equity/tests/test_equity_calc.py` calls is not present under `src/`
(only its tests are). Following spec sections 4.4 and 7, it validates that
the candidate pool can supply `2 * opponent_count` hole cards and fails
fast with `InsufficientPoolSize` before any trial runs; otherwise it scores
one trial per entry of `draws` (the abstract random sampler: for each trial
the list of each opponent's sampled hole cards), ranking a hand via the
minimum of the 5-card classifier over its 5-card subsets, and returns
`(wins + 0.5 * ties) / trial_count`. -/
def estimate_equity (hero_hole candidate_pool : List ℕ) (opponent_count : ℕ)
    (board : List ℕ) (draws : List (List (List ℕ))) : Except EvalError ℚ :=
  if candidate_pool.length < 2 * opponent_count then .error .insufficientPoolSize
  else
    let hero_best := HandEvaluator.bestRank (hero_hole ++ board)
    let tally := draws.foldl
      (fun (st : ℕ × ℕ) opp_holes =>
        let best_opp := opp_holes.foldl
          (fun acc h => min acc (HandEvaluator.bestRank (h ++ board))) (⊤ : WithTop ℤ)
        if hero_best < best_opp then (st.1 + 1, st.2)
        else if hero_best = best_opp then (st.1, st.2 + 1)
        else st)
      ((0 : ℕ), (0 : ℕ))
    .ok (((tally.1 : ℚ) + (1 / 2) * (tally.2 : ℚ)) / (draws.length : ℚ))

/-- The best-opponent value a 5-card trial folds to, as a pure function. -/
def bestOf (opponent_hands : List (List ℕ)) : WithTop ℤ :=
  opponent_hands.foldl
    (fun acc o => min acc ((HandEvaluator.evaluate o : ℤ) : WithTop ℤ)) ⊤

/-- The `opp_rank` variable surviving a 5-card trial. -/
def lastRank (opponent_hands : List (List ℕ)) (r : Option ℤ) : Option ℤ :=
  opponent_hands.foldl (fun _ o => some (HandEvaluator.evaluate o)) r

/-- The (wins, ties) increment one trial contributes. -/
def trialDelta (my b : WithTop ℤ) : ℕ × ℕ :=
  if my < b then (1, 0) else if my = b then (0, 1) else (0, 0)

/-- The best-opponent value a 7-card trial folds to, as a pure function. -/
def bestOf7 (opponent_cards : List (List ℕ)) : WithTop ℤ :=
  opponent_cards.foldl (fun acc o => min acc (HandEvaluator.bestRank o)) ⊤

theorem exceptBind_ok {ε α β : Type} (a : α) (f : α → Except ε β) :
    ((Except.ok a : Except ε α) >>= f) = f a := rfl

theorem exceptPure_ok {ε α : Type} (a : α) : (pure a : Except ε α) = Except.ok a := rfl

theorem oppStep_valid {opp : List ℕ} (h : opp.length = 5) (st : WithTop ℤ × Option ℤ) :
    oppStep st opp =
      .ok (min st.1 ((HandEvaluator.evaluate opp : ℤ) : WithTop ℤ),
        some (HandEvaluator.evaluate opp)) := by
  simp [oppStep, h]

theorem foldlM_oppStep (opps : List (List ℕ)) (h : ∀ o ∈ opps, o.length = 5) :
    ∀ (b : WithTop ℤ) (r : Option ℤ),
      opps.foldlM oppStep (b, r) =
        .ok (opps.foldl
            (fun acc o => min acc ((HandEvaluator.evaluate o : ℤ) : WithTop ℤ)) b,
          opps.foldl (fun _ o => some (HandEvaluator.evaluate o)) r) := by
  induction opps with
  | nil => intro b r; rfl
  | cons a l ih =>
    intro b r
    have ha : a.length = 5 := h a (List.mem_cons_self a l)
    rw [List.foldlM_cons, oppStep_valid ha, exceptBind_ok]
    simpa using ih (fun o ho => h o (List.mem_cons_of_mem a ho)) _ _

theorem trialStep5_valid (opps : List (List ℕ)) (h : ∀ o ∈ opps, o.length = 5)
    (my : ℤ) (st : ℕ × ℕ × Option ℤ) (i : ℕ) :
    trialStep5 opps my st i =
      .ok (st.1 + (trialDelta ((my : ℤ) : WithTop ℤ) (bestOf opps)).1,
        st.2.1 + (trialDelta ((my : ℤ) : WithTop ℤ) (bestOf opps)).2,
        lastRank opps st.2.2) := by
  unfold trialStep5
  rw [foldlM_oppStep opps h, exceptBind_ok]
  unfold trialDelta bestOf lastRank
  split_ifs <;> simp [exceptPure_ok]

theorem foldlM_trialStep5 (opps : List (List ℕ)) (h : ∀ o ∈ opps, o.length = 5)
    (my : ℤ) :
    ∀ (l : List ℕ) (w t : ℕ) (r : Option ℤ), ∃ r' : Option ℤ,
      l.foldlM (trialStep5 opps my) (w, t, r) =
        .ok (w + l.length * (trialDelta ((my : ℤ) : WithTop ℤ) (bestOf opps)).1,
          t + l.length * (trialDelta ((my : ℤ) : WithTop ℤ) (bestOf opps)).2, r') := by
  intro l
  induction l with
  | nil => intro w t r; exact ⟨r, by simp [List.foldlM, exceptPure_ok]⟩
  | cons a l ih =>
    intro w t r
    obtain ⟨r', hr⟩ := ih (w + (trialDelta ((my : ℤ) : WithTop ℤ) (bestOf opps)).1)
      (t + (trialDelta ((my : ℤ) : WithTop ℤ) (bestOf opps)).2) (lastRank opps r)
    refine ⟨r', ?_⟩
    rw [List.foldlM_cons, trialStep5_valid opps h my (w, t, r) a, exceptBind_ok, hr]
    have e1 : w + (trialDelta ((my : ℤ) : WithTop ℤ) (bestOf opps)).1
        + l.length * (trialDelta ((my : ℤ) : WithTop ℤ) (bestOf opps)).1
        = w + (a :: l).length * (trialDelta ((my : ℤ) : WithTop ℤ) (bestOf opps)).1 := by
      simp [List.length_cons]; ring
    have e2 : t + (trialDelta ((my : ℤ) : WithTop ℤ) (bestOf opps)).2
        + l.length * (trialDelta ((my : ℤ) : WithTop ℤ) (bestOf opps)).2
        = t + (a :: l).length * (trialDelta ((my : ℤ) : WithTop ℤ) (bestOf opps)).2 := by
      simp [List.length_cons]; ring
    rw [e1, e2]

/-- Closed form of `estimate_equity_5cards` on well-formed input: the
trials are identical, so the result is the single-trial tally. -/
theorem e5_closed (my_hand : List ℕ) (opps : List (List ℕ)) (N : ℕ)
    (h5 : my_hand.length = 5) (h : ∀ o ∈ opps, o.length = 5) (hN : N ≠ 0) :
    estimate_equity_5cards my_hand opps N =
      .ok (if opps.isEmpty then 0
        else ((trialDelta ((HandEvaluator.evaluate my_hand : ℤ) : WithTop ℤ)
            (bestOf opps)).1 : ℚ)
          + ((trialDelta ((HandEvaluator.evaluate my_hand : ℤ) : WithTop ℤ)
            (bestOf opps)).2 : ℚ) / (opps.length : ℚ)) := by
  unfold estimate_equity_5cards
  rw [if_neg (by simp [h5])]
  obtain ⟨r', hr⟩ := foldlM_trialStep5 opps h (HandEvaluator.evaluate my_hand)
    (List.range N) 0 0 none
  rw [List.length_range] at hr
  rw [hr]
  simp only [Except.map]
  congr 1
  split_ifs with he
  · rfl
  · have hk : (opps.length : ℚ) ≠ 0 := by
      have : opps ≠ [] := by simpa [List.isEmpty_iff] using he
      exact_mod_cast (List.length_pos.mpr this).ne'
    have hNq : (N : ℚ) ≠ 0 := Nat.cast_ne_zero.mpr hN
    push_cast
    field_simp
    ring

theorem oppStep7_valid {opp : List ℕ} (h : opp.length = 7) (b : WithTop ℤ) :
    oppStep7 b opp = .ok (min b (HandEvaluator.bestRank opp)) := by
  simp [oppStep7, HandEvaluator.evaluate_7cards, h, exceptBind_ok]

theorem foldlM_oppStep7 (opps : List (List ℕ)) (h : ∀ o ∈ opps, o.length = 7) :
    ∀ b : WithTop ℤ,
      opps.foldlM oppStep7 b =
        .ok (opps.foldl (fun acc o => min acc (HandEvaluator.bestRank o)) b) := by
  induction opps with
  | nil => intro b; rfl
  | cons a l ih =>
    intro b
    have ha : a.length = 7 := h a (List.mem_cons_self a l)
    rw [List.foldlM_cons, oppStep7_valid ha, exceptBind_ok]
    simpa using ih (fun o ho => h o (List.mem_cons_of_mem a ho)) _

theorem trialStep7_valid (opps : List (List ℕ)) (h : ∀ o ∈ opps, o.length = 7)
    (mb : WithTop ℤ) (st : ℕ × ℕ) (i : ℕ) :
    trialStep7 opps mb st i =
      .ok (st.1 + (trialDelta mb (bestOf7 opps)).1,
        st.2 + (trialDelta mb (bestOf7 opps)).2) := by
  unfold trialStep7
  rw [foldlM_oppStep7 opps h, exceptBind_ok]
  unfold trialDelta bestOf7
  split_ifs <;> simp [exceptPure_ok]

theorem foldlM_trialStep7 (opps : List (List ℕ)) (h : ∀ o ∈ opps, o.length = 7)
    (mb : WithTop ℤ) :
    ∀ (l : List ℕ) (w t : ℕ),
      l.foldlM (trialStep7 opps mb) (w, t) =
        .ok (w + l.length * (trialDelta mb (bestOf7 opps)).1,
          t + l.length * (trialDelta mb (bestOf7 opps)).2) := by
  intro l
  induction l with
  | nil => intro w t; simp [List.foldlM, exceptPure_ok]
  | cons a l ih =>
    intro w t
    rw [List.foldlM_cons, trialStep7_valid opps h mb (w, t) a, exceptBind_ok, ih]
    have e1 : w + (trialDelta mb (bestOf7 opps)).1
        + l.length * (trialDelta mb (bestOf7 opps)).1
        = w + (a :: l).length * (trialDelta mb (bestOf7 opps)).1 := by
      simp [List.length_cons]; ring
    have e2 : t + (trialDelta mb (bestOf7 opps)).2
        + l.length * (trialDelta mb (bestOf7 opps)).2
        = t + (a :: l).length * (trialDelta mb (bestOf7 opps)).2 := by
      simp [List.length_cons]; ring
    rw [e1, e2]

/-- Closed form of `estimate_equity_7cards` on well-formed input. -/
theorem e7_closed (my_cards : List ℕ) (opps : List (List ℕ)) (N : ℕ)
    (h7 : my_cards.length = 7) (h : ∀ o ∈ opps, o.length = 7) (hN : N ≠ 0) :
    estimate_equity_7cards my_cards opps N =
      .ok (if opps.isEmpty then 0
        else ((trialDelta (HandEvaluator.bestRank my_cards) (bestOf7 opps)).1 : ℚ)
          + ((trialDelta (HandEvaluator.bestRank my_cards) (bestOf7 opps)).2 : ℚ)
            / (opps.length : ℚ)) := by
  unfold estimate_equity_7cards
  rw [if_neg (by simp [h7])]
  have hmy : HandEvaluator.evaluate_7cards my_cards =
      .ok (HandEvaluator.bestRank my_cards) := by
    simp [HandEvaluator.evaluate_7cards, h7]
  rw [hmy, exceptBind_ok, foldlM_trialStep7 opps h (HandEvaluator.bestRank my_cards)
    (List.range N) 0 0, List.length_range, exceptBind_ok]
  congr 1
  split_ifs with he
  · rfl
  · have hk : (opps.length : ℚ) ≠ 0 := by
      have : opps ≠ [] := by simpa [List.isEmpty_iff] using he
      exact_mod_cast (List.length_pos.mpr this).ne'
    have hNq : (N : ℚ) ≠ 0 := Nat.cast_ne_zero.mpr hN
    push_cast
    field_simp
    ring

end equity_calc

/-- Folding a minimum never rises above the start value. -/
theorem foldl_min_le_init {α : Type} (g : α → WithTop ℤ) :
    ∀ (l : List α) (b : WithTop ℤ), l.foldl (fun acc c => min acc (g c)) b ≤ b := by
  intro l
  induction l with
  | nil => intro b; exact le_refl b
  | cons a l ih =>
    intro b
    simpa using le_trans (ih (min b (g a))) (min_le_left _ _)

/-- Folding a minimum yields a lower bound of every listed value. -/
theorem foldl_min_le_mem {α : Type} (g : α → WithTop ℤ) :
    ∀ (l : List α) (b : WithTop ℤ) (x : α), x ∈ l →
      l.foldl (fun acc c => min acc (g c)) b ≤ g x := by
  intro l
  induction l with
  | nil => intro b x hx; exact absurd hx (List.not_mem_nil x)
  | cons a l ih =>
    intro b x hx
    rcases List.mem_cons.mp hx with rfl | hx
    · simpa using le_trans (foldl_min_le_init g l (min b (g x))) (min_le_right _ _)
    · simpa using ih (min b (g a)) x hx

/-- A folded minimum is either the start value or one of the listed values. -/
theorem foldl_min_attained {α : Type} (g : α → WithTop ℤ) :
    ∀ (l : List α) (b : WithTop ℤ),
      l.foldl (fun acc c => min acc (g c)) b = b ∨
        ∃ x ∈ l, l.foldl (fun acc c => min acc (g c)) b = g x := by
  intro l
  induction l with
  | nil => intro b; exact Or.inl rfl
  | cons a l ih =>
    intro b
    simp only [List.foldl_cons]
    rcases ih (min b (g a)) with h | ⟨x, hx, h⟩
    · rcases min_choice b (g a) with hm | hm
      · exact Or.inl (h.trans hm)
      · exact Or.inr ⟨a, List.mem_cons_self a l, h.trans hm⟩
    · exact Or.inr ⟨x, List.mem_cons_of_mem a hx, h⟩

/-! Concrete hands used as test inputs, spelled with the card codec. -/

/-- Ace-high spade flush A K Q J 9 (not a straight). -/
def heroFlushS : List ℕ :=
  [card! 'a' 's', card! 'k' 's', card! 'q' 's', card! 'j' 's', card! '9' 's']

/-- Ace-high heart flush A K Q J 9, tying `heroFlushS` rank-for-rank. -/
def oppFlushH : List ℕ :=
  [card! 'a' 'h', card! 'k' 'h', card! 'q' 'h', card! 'j' 'h', card! '9' 'h']

/-- Seven-high diamond flush 7 5 4 3 2 (not a straight), far weaker. -/
def oppFlushD : List ℕ :=
  [card! '2' 'd', card! '3' 'd', card! '4' 'd', card! '5' 'd', card! '7' 'd']

/-- Seven-high club flush 7 5 4 3 2 (not a straight), far weaker. -/
def oppFlushC : List ℕ :=
  [card! '2' 'c', card! '3' 'c', card! '4' 'c', card! '5' 'c', card! '7' 'c']

/-- Three deuces with 4 and 3 kickers (offsuit). -/
def tripDeuces : List ℕ :=
  [card! '2' 's', card! '2' 'h', card! '2' 'd', card! '4' 'c', card! '3' 'c']

/-- Pair of aces with K Q J kickers (offsuit). -/
def pairAces : List ℕ :=
  [card! 'a' 's', card! 'a' 'h', card! 'k' 'd', card! 'q' 'c', card! 'j' 'c']

/-- High-card hand A K Q J 8 (offsuit, no straight). -/
def highCardA : List ℕ :=
  [card! 'a' 's', card! 'k' 'h', card! 'q' 'd', card! 'j' 'c', card! '8' 's']

/-- High-card hand A K Q T 9 (offsuit, no straight). -/
def highCardB : List ℕ :=
  [card! 'a' 'h', card! 'k' 's', card! 'q' 'd', card! 't' 'c', card! '9' 's']

/-- The wheel straight flush A 2 3 4 5 of spades. -/
def wheelSF : List ℕ :=
  [card! 'a' 's', card! '2' 's', card! '3' 's', card! '4' 's', card! '5' 's']

/-- The 6-high straight flush 2 3 4 5 6 of spades. -/
def sixHighSF : List ℕ :=
  [card! '2' 's', card! '3' 's', card! '4' 's', card! '5' 's', card! '6' 's']

/-- The king-high straight flush 9 T J Q K of spades. -/
def kingHighSF : List ℕ :=
  [card! '9' 's', card! 't' 's', card! 'j' 's', card! 'q' 's', card! 'k' 's']

/-- Seven distinct cards. -/
def sevenCards : List ℕ :=
  [card! 'a' 's', card! 'k' 's', card! 'q' 's', card! 'j' 's', card! 't' 's',
   card! '9' 'h', card! '2' 'd']

/-- Seven distinct cards, disjoint from `sevenCards`. -/
def sevenCards2 : List ℕ :=
  [card! 'a' 'h', card! 'k' 'h', card! 'q' 'h', card! 'j' 'h', card! 't' 'h',
   card! '9' 'd', card! '2' 'c']

/-- Six distinct cards. -/
def sixCards : List ℕ :=
  [card! 'a' 's', card! 'k' 's', card! 'q' 's', card! 'j' 's', card! 't' 's',
   card! '9' 'h']

/-- Four distinct cards. -/
def fourCards : List ℕ :=
  [card! 'a' 's', card! 'k' 's', card! 'q' 's', card! 'j' 's']

/-- A 5-card input repeating the physical ace of spades. -/
def dupHand : List ℕ :=
  [card! 'a' 's', card! 'a' 's', card! 'k' 's', card! 'q' 's', card! 'j' 's']

/-- The 52 canonical lowercase tokens, one per physical card. -/
def tokens52 : List (Char × Char) :=
  RANK_STR.flatMap (fun r => SUIT_STR.map (fun s => (r, s)))

/-- All rank characters the codec accepts, both letter cases. -/
def RANK_CHARS_CI : List Char := RANK_STR ++ ['T', 'J', 'Q', 'K', 'A']

/-- All suit characters the codec accepts, both letter cases. -/
def SUIT_CHARS_CI : List Char := SUIT_STR ++ ['S', 'H', 'D', 'C']

/-- Every valid token in either letter case (rank 2-9,t,j,q,k,a; suit
s,h,d,c). -/
def tokensCI : List (Char × Char) :=
  RANK_CHARS_CI.flatMap (fun r => SUIT_CHARS_CI.map (fun s => (r, s)))

/-! The claims. -/

/-- C1: the claim says rank-value bands of strictly stronger categories lie
strictly below those of weaker categories. The code violates it: the
three-of-a-kind hand 2 2 2 4 3 evaluates to 4600 while the pair hand
A A K Q J evaluates to 4299, so this pair (weaker category) outranks the
trips, exactly the overlap the claim forbids (the code's own docstring
bands, three of a kind 2000-2215 and pair 4000-6047, are also exceeded). -/
theorem C1_category_bands_overlap :
    HandEvaluator.evaluate pairAces < HandEvaluator.evaluate tripDeuces ∧
    HandEvaluator.evaluate tripDeuces = 4600 ∧
    HandEvaluator.evaluate pairAces = 4299 := by decide

/-- C3: the claim says two same-category hands get equal values iff the
ordered group-then-kicker tuples match. The code violates it: the high-card
hands A K Q J 8 and A K Q T 9 have different descending rank tuples yet
both evaluate to 6212, because the high-card (and kicker) encodings use an
order-insensitive sum. -/
theorem C3_kicker_tuple_collision :
    HandEvaluator.evaluate highCardA = HandEvaluator.evaluate highCardB ∧
    sortDesc (highCardA.map (fun c => c &&& 0xF)) ≠
      sortDesc (highCardB.map (fun c => c &&& 0xF)) ∧
    HandEvaluator.evaluate highCardA = 6212 := by decide

/-- C4: the claim says the wheel straight flush is the weakest straight
flush (largest value among straight flushes). The code gives the wheel
value 1, strictly better than the 6-high straight flush's 8 and equal to
the king-high straight flush's 1; only the second half of the claim (wheel
beats any non-straight-flush hand, e.g. the A K Q J 9 flush) holds. -/
theorem C4_wheel_not_weakest_straight_flush :
    HandEvaluator.evaluate wheelSF = 1 ∧
    HandEvaluator.evaluate sixHighSF = 8 ∧
    HandEvaluator.evaluate wheelSF < HandEvaluator.evaluate sixHighSF ∧
    HandEvaluator.evaluate kingHighSF = HandEvaluator.evaluate wheelSF ∧
    HandEvaluator.evaluate wheelSF < HandEvaluator.evaluate heroFlushS := by decide

/-- C2: the claim says equity is `(wins + 0.5 * ties) / N` with the tie
credit never divided by the opponent count. The code divides `ties` by
`len(opponent_hands)`: a heads-up tied trial yields equity 1 (not 0.5) and
the same tied trial against three opponents yields 1/3 (not 0.5). -/
theorem C2_tie_credit_divided_by_opponent_count :
    equity_calc.estimate_equity_5cards heroFlushS [oppFlushH] 1 = .ok 1 ∧
    equity_calc.estimate_equity_5cards heroFlushS [oppFlushH, oppFlushD, oppFlushC] 1 =
      .ok (1 / 3) := by
  have h1 := equity_calc.e5_closed heroFlushS [oppFlushH] 1
    (by decide) (by decide) one_ne_zero
  have h2 := equity_calc.e5_closed heroFlushS [oppFlushH, oppFlushD, oppFlushC] 1
    (by decide) (by decide) one_ne_zero
  have d1 : equity_calc.trialDelta ((HandEvaluator.evaluate heroFlushS : ℤ) : WithTop ℤ)
      (equity_calc.bestOf [oppFlushH]) = (0, 1) := by decide
  have d2 : equity_calc.trialDelta ((HandEvaluator.evaluate heroFlushS : ℤ) : WithTop ℤ)
      (equity_calc.bestOf [oppFlushH, oppFlushD, oppFlushC]) = (0, 1) := by decide
  rw [d1] at h1
  rw [d2] at h2
  constructor
  · rw [h1]
    congr 1
    norm_num
  · rw [h2]
    congr 1
    norm_num

/-- C5: spec-modelled (`estimate_equity` is absent from `src/`): the
estimator fails with `InsufficientPoolSize` exactly when the candidate pool
holds fewer than `2 * opponent_count` cards, for every trial stream — so
the check happens before and independently of any trial, and an adequate
pool is never rejected mid-simulation. -/
theorem C5_insufficient_pool_fail_fast (hero_hole candidate_pool : List ℕ)
    (opponent_count : ℕ) (board : List ℕ) (draws : List (List (List ℕ))) :
    equity_calc.estimate_equity hero_hole candidate_pool opponent_count board draws =
        .error EvalError.insufficientPoolSize ↔
      candidate_pool.length < 2 * opponent_count := by
  unfold equity_calc.estimate_equity
  split_ifs with h
  · simp [h]
  · simp [h]

/-- Witness for C5 at the spec's boundary example: a pool of 3 cards with
2 opponents. -/
theorem C5_insufficient_pool_witness :
    equity_calc.estimate_equity [] [0, 1, 2] 2 [] [] =
        .error EvalError.insufficientPoolSize ↔
      ([0, 1, 2] : List ℕ).length < 2 * 2 :=
  C5_insufficient_pool_fail_fast [] [0, 1, 2] 2 [] []

/-- C6: on any 7 distinct cards the best-of-N evaluator returns exactly the
minimum of the 5-card evaluation over all C(7,5) = 21 five-card subsets:
there are 21 subsets, the result is the value of one of them, and that
value is a lower bound of all of them. -/
theorem C6_best_of_seven_is_min_over_subsets (cards : List ℕ)
    (h7 : cards.length = 7) (hnd : cards.Nodup) :
    (List.sublistsLen 5 cards).length = 21 ∧
    ∃ s ∈ List.sublistsLen 5 cards,
      HandEvaluator.evaluate_7cards cards =
        .ok ((HandEvaluator.evaluate s : ℤ) : WithTop ℤ) ∧
      ∀ t ∈ List.sublistsLen 5 cards,
        HandEvaluator.evaluate s ≤ HandEvaluator.evaluate t := by
  have hlen : (List.sublistsLen 5 cards).length = 21 := by
    rw [List.length_sublistsLen, h7]
    decide
  refine ⟨hlen, ?_⟩
  have heval : HandEvaluator.evaluate_7cards cards =
      .ok (HandEvaluator.bestRank cards) := by
    simp [HandEvaluator.evaluate_7cards, h7]
  have hne : List.sublistsLen 5 cards ≠ [] := by
    intro hnil
    rw [hnil] at hlen
    simp at hlen
  rcases foldl_min_attained (fun c => ((HandEvaluator.evaluate c : ℤ) : WithTop ℤ))
      (List.sublistsLen 5 cards) ⊤ with htop | ⟨s, hs, hfold⟩
  · exfalso
    obtain ⟨x, hx⟩ := List.exists_mem_of_ne_nil _ hne
    have hle := foldl_min_le_mem (fun c => ((HandEvaluator.evaluate c : ℤ) : WithTop ℤ))
      (List.sublistsLen 5 cards) ⊤ x hx
    rw [htop] at hle
    exact WithTop.coe_ne_top (top_le_iff.mp hle)
  · refine ⟨s, hs, ?_, ?_⟩
    · rw [heval]
      exact congrArg Except.ok hfold
    · intro t ht
      have hle := foldl_min_le_mem (fun c => ((HandEvaluator.evaluate c : ℤ) : WithTop ℤ))
        (List.sublistsLen 5 cards) ⊤ t ht
      rw [hfold] at hle
      have hle2 : ((HandEvaluator.evaluate s : ℤ) : WithTop ℤ) ≤
          ((HandEvaluator.evaluate t : ℤ) : WithTop ℤ) := hle
      exact_mod_cast hle2

/-- Witness for C6 at a concrete 7-card input. -/
theorem C6_best_of_seven_witness :
    (List.sublistsLen 5 sevenCards).length = 21 ∧
    ∃ s ∈ List.sublistsLen 5 sevenCards,
      HandEvaluator.evaluate_7cards sevenCards =
        .ok ((HandEvaluator.evaluate s : ℤ) : WithTop ℤ) ∧
      ∀ t ∈ List.sublistsLen 5 sevenCards,
        HandEvaluator.evaluate s ≤ HandEvaluator.evaluate t :=
  C6_best_of_seven_is_min_over_subsets sevenCards (by decide) (by decide)

/-- C7 counterexample: the claim says a 6-card input succeeds; the code
rejects 6 distinct cards with the wrong-card-count error. -/
theorem C7_counterexample_six_cards_rejected :
    sixCards.length = 6 ∧ sixCards.Nodup ∧
    HandEvaluator.evaluate_7cards sixCards = .error EvalError.wrongCardCount := by decide

/-- C7 amended: the best-of-N evaluator accepts only exactly 7 cards and
fails with the wrong-card-count error for every other size, including 6. -/
theorem C7_amended_only_seven_cards (cards : List ℕ) (h : cards.length ≠ 7) :
    HandEvaluator.evaluate_7cards cards = .error EvalError.wrongCardCount := by
  simp [HandEvaluator.evaluate_7cards, h]

/-- Witness for the amended C7 at the concrete 6-card input. -/
theorem C7_amended_witness :
    HandEvaluator.evaluate_7cards sixCards = .error EvalError.wrongCardCount :=
  C7_amended_only_seven_cards sixCards (by decide)

/-- C8 counterexample: the claim says a repeated physical card makes the
classifier fail with `DuplicateCard`; the code silently evaluates the
duplicated hand A♠ A♠ K♠ Q♠ J♠ to the flush value 1406. -/
theorem C8_counterexample_duplicate_accepted :
    ¬ dupHand.Nodup ∧ dupHand.length = 5 ∧
    HandEvaluator.evaluate_5cards dupHand = .ok 1406 := by decide

/-- C8 amended: the classifier performs no duplicate validation — every
5-card input, duplicated physical cards included, is silently computed —
and it fails (with the wrong-card-count error) only when the input is not
exactly 5 cards. -/
theorem C8_amended_no_duplicate_check (cards : List ℕ) :
    (¬ cards.Nodup → cards.length = 5 →
      ∃ v, HandEvaluator.evaluate_5cards cards = .ok v) ∧
    (cards.length ≠ 5 →
      HandEvaluator.evaluate_5cards cards = .error EvalError.wrongCardCount) := by
  constructor
  · intro hdup h
    exact ⟨HandEvaluator.evaluate cards, by simp [HandEvaluator.evaluate_5cards, h]⟩
  · intro h
    simp [HandEvaluator.evaluate_5cards, h]

/-- Witness for the amended C8 at the duplicated hand and a 4-card input. -/
theorem C8_amended_witness :
    (∃ v, HandEvaluator.evaluate_5cards dupHand = .ok v) ∧
    HandEvaluator.evaluate_5cards fourCards = .error EvalError.wrongCardCount :=
  ⟨(C8_amended_no_duplicate_check dupHand).1 (by decide) (by decide),
   (C8_amended_no_duplicate_check fourCards).2 (by decide)⟩

set_option maxRecDepth 4000 in
/-- C9: the card codec is injective on the 52 canonical tokens (no two
distinct (rank, suit) pairs share an encoding), and decoding the encoding
of any valid token of either letter case succeeds and returns the
lowercase token, so the round trip is lossless. -/
theorem C9_codec_injective_and_lossless :
    (∀ t1 ∈ tokens52, ∀ t2 ∈ tokens52,
      string_to_card t1.1 t1.2 = string_to_card t2.1 t2.2 → t1 = t2) ∧
    (∀ t ∈ tokensCI,
      (string_to_card t.1 t.2).isSome = true ∧
      card_to_string ((string_to_card t.1 t.2).getD 0) =
        some (t.1.toLower, t.2.toLower)) := by
  constructor
  · decide
  · decide

/-- Witness for C9 at the ace-of-spades token in both letter cases. -/
theorem C9_codec_witness :
    (('a', 's') : Char × Char) = ('a', 's') ∧
    ((string_to_card 'A' 'S').isSome = true ∧
      card_to_string ((string_to_card 'A' 'S').getD 0) =
        some (('A').toLower, ('S').toLower)) :=
  ⟨C9_codec_injective_and_lossless.1 ('a', 's') (by decide) ('a', 's') (by decide) rfl,
   C9_codec_injective_and_lossless.2 ('A', 'S') (by decide)⟩

/-- C10: the trial loops draw nothing random — every trial re-evaluates the
same fixed hands — so on well-formed input both estimators return exactly
the same value for any two positive trial counts. -/
theorem C10_equity_independent_of_trial_count :
    (∀ (my_hand : List ℕ) (opps : List (List ℕ)) (n m : ℕ),
      my_hand.length = 5 → (∀ o ∈ opps, o.length = 5) → 1 ≤ n → 1 ≤ m →
      equity_calc.estimate_equity_5cards my_hand opps n =
        equity_calc.estimate_equity_5cards my_hand opps m) ∧
    (∀ (my_cards : List ℕ) (opps : List (List ℕ)) (n m : ℕ),
      my_cards.length = 7 → (∀ o ∈ opps, o.length = 7) → 1 ≤ n → 1 ≤ m →
      equity_calc.estimate_equity_7cards my_cards opps n =
        equity_calc.estimate_equity_7cards my_cards opps m) := by
  constructor
  · intro my_hand opps n m h5 ho hn hm
    rw [equity_calc.e5_closed my_hand opps n h5 ho (by omega),
      equity_calc.e5_closed my_hand opps m h5 ho (by omega)]
  · intro my_cards opps n m h7 ho hn hm
    rw [equity_calc.e7_closed my_cards opps n h7 ho (by omega),
      equity_calc.e7_closed my_cards opps m h7 ho (by omega)]

/-- Witness for C10 at concrete hands and trial counts 2 vs 7 and 1 vs 3. -/
theorem C10_equity_witness :
    equity_calc.estimate_equity_5cards heroFlushS [oppFlushD] 2 =
      equity_calc.estimate_equity_5cards heroFlushS [oppFlushD] 7 ∧
    equity_calc.estimate_equity_7cards sevenCards [sevenCards2] 1 =
      equity_calc.estimate_equity_7cards sevenCards [sevenCards2] 3 :=
  ⟨C10_equity_independent_of_trial_count.1 heroFlushS [oppFlushD] 2 7
      (by decide) (by decide) (by decide) (by decide),
   C10_equity_independent_of_trial_count.2 sevenCards [sevenCards2] 1 3
      (by decide) (by decide) (by decide) (by decide)⟩

end PokerBot
